import Mathlib

/-!
Verification of the key-management and encrypted-record-store subsystem of
InnerBoard-local (`app/security.py` and `app/storage.py`).

The Python code is shallowly embedded: byte strings and Python `str` values
are both modelled as `List Nat` (bytes, respectively Unicode code points),
randomness (`secrets.token_bytes`) is passed in as explicit parameters, and
each fallible Python function becomes a Lean function returning `Except Err`.

The external `cryptography` / `hashlib` / `base64` library primitives are not
part of this repository; they are modelled by executable idealizations that
satisfy the contracts the code relies on (authenticated encryption,
collision-free digests, lossless transport encodings, a collision-free KDF).
Every function of the repository itself is translated from the source.
-/

/-! ## Definitions: models of library primitives and the embedded program -/

/-- Byte strings (and Python `str` values, as Unicode code points). -/
abbrev Bytes := List Nat

/-- Model of `base64.b64encode` / `base64.urlsafe_b64encode`: a lossless
transport encoding, modelled as the identity on byte lists. -/
def b64encode (bs : Bytes) : Bytes := bs

/-- Model of `base64.b64decode` / `base64.urlsafe_b64decode`: the (total)
inverse of `b64encode`. -/
def b64decode (bs : Bytes) : Bytes := bs

/-- Model of `hashlib.sha256(x).hexdigest()`: an injective digest function
(SHA-256 is collision-free for all practical purposes; the idealized model
makes this exact). The hex string is represented by its byte content. -/
def sha256hex (bs : Bytes) : Bytes := bs.length :: bs

/-- Model of `PBKDF2HMAC(SHA256, length=32, salt, iterations).derive(password)`:
a key-derivation function that is collision-free in the triple
(password, salt, iterations) — the idealization of a random oracle KDF. -/
def pbkdf2 (password salt : Bytes) (iterations : Nat) : Bytes :=
  password.length :: iterations :: (password ++ salt)

/-- Model of `Fernet(key).encrypt(msg)`: an authenticated symmetric cipher.
The ciphertext consists of a length header, the message, and an
authentication tag covering the key and the whole message (real Fernet: an
HMAC over the token).  The model is deterministic (the random IV of real
Fernet is irrelevant to the verified claims). -/
def fernetEncrypt (key msg : Bytes) : Bytes :=
  msg.length :: msg ++ key ++ msg

/-- Model of `Fernet(key).decrypt(ct)`: succeeds exactly on genuine
ciphertexts produced with the same key (`InvalidToken` is modelled by
`none`). -/
def fernetDecrypt (key ct : Bytes) : Option Bytes :=
  match ct with
  | [] => none
  | n :: rest =>
    if n ≤ rest.length ∧ rest.drop n = key ++ rest.take n then
      some (rest.take n)
    else
      none

/-- Whether a byte is in the URL-safe base64 alphabet (with `=` padding). -/
def isB64UrlByte (b : Nat) : Bool :=
  (65 ≤ b && b ≤ 90) || (97 ≤ b && b ≤ 122) || (48 ≤ b && b ≤ 57) ||
    b = 45 || b = 95 || b = 61

/-- Model of the validation the `Fernet(key)` constructor performs: a
well-formed Fernet key is 44 bytes of URL-safe base64 (decoding to 32 raw
bytes). -/
def fernetValidKey (key : Bytes) : Bool :=
  decide (key.length = 44) && key.all isB64UrlByte

inductive Err where
  | keyNotFound (msg : String)
  | invalidKey (msg : String)
  | encryptionError (msg : String)
  | validationError (msg : String)
  | databaseError (msg : String)
  | valueError (msg : String)
  deriving DecidableEq, Repr

def Err.msg : Err → String
  | .keyNotFound m => m
  | .invalidKey m => m
  | .encryptionError m => m
  | .validationError m => m
  | .databaseError m => m
  | .valueError m => m

/-- `isinstance(e, (DatabaseError, EncryptionError))` — true for
`EncryptionError` and its subclasses `KeyNotFoundError`, `InvalidKeyError`,
and for `DatabaseError`. -/
def Err.isDbOrEncErr : Err → Bool
  | .keyNotFound _ => true
  | .invalidKey _ => true
  | .encryptionError _ => true
  | .databaseError _ => true
  | _ => false

/-- The parsed content of a version-aware key file (the JSON object written
by `save_master_key`): fields are optional because `json.load` returns a
plain dictionary. -/
structure KeyRecord where
  ver : Option Nat
  salt : Option Bytes
  key_hash : Option Bytes
  iterations : Option Nat
  encrypted_key : Option Bytes
  master_key : Option Bytes
  deriving DecidableEq, Repr

def encOptNat : Option Nat → Bytes
  | none => [0]
  | some n => [1, n]

def encOptBytes : Option Bytes → Bytes
  | none => [0]
  | some bs => 1 :: bs.length :: bs

/-- Model of `json.dumps(key_data)` as UTF-8 bytes: the exact field encoding
is irrelevant to the verified claims; what matters is that a serialized JSON
object starts with the byte of the character that opens an object
(code 123), which is not in the base64 alphabet. -/
def jsonSerialize (r : KeyRecord) : Bytes :=
  123 :: (encOptNat r.ver ++ encOptBytes r.salt ++ encOptBytes r.key_hash ++
    encOptNat r.iterations ++ encOptBytes r.encrypted_key ++
    encOptBytes r.master_key) ++ [125]

/-- The on-disk key file: `json` is the result of parsing it with
`json.load` (`none` when the content is not valid JSON), `raw` its raw byte
content (read by the legacy loaders). -/
structure KeyFile where
  json : Option KeyRecord
  raw : Bytes
  deriving DecidableEq, Repr

/-- The mutable state of a `SecureKeyManager` instance
(`self._master_key`, `self._salt`). -/
structure ManagerState where
  master_key : Option Bytes
  salt : Option Bytes
  deriving DecidableEq, Repr

/-- Python truthiness of an optional byte/str value (`if password:`);
`None` and the empty value are both falsy. -/
def optTruthy : Option Bytes → Bool
  | none => false
  | some bs => !bs.isEmpty

/-- `SecureKeyManager.SALT_SIZE` -/
def SALT_SIZE : Nat := 32

/-- `SecureKeyManager.KEY_SIZE` -/
def KEY_SIZE : Nat := 32

/-- `SecureKeyManager.ITERATIONS` -/
def ITERATIONS : Nat := 100000

/-- `SecureKeyManager.generate_master_key`.  The random draws
(`secrets.token_bytes`) are passed in: `randSalt` is the fresh salt and
`randPw` the random password material used when no password is supplied. -/
def generateMasterKey (randSalt randPw : Bytes) (password : Option Bytes) :
    Bytes × ManagerState :=
  let passwordBytes := if optTruthy password then password.getD [] else randPw
  let derivedKey := pbkdf2 passwordBytes randSalt ITERATIONS
  let masterKey := b64encode derivedKey
  (masterKey, { master_key := some masterKey, salt := some randSalt })

/-- `SecureKeyManager.save_master_key`: builds the version-1 key record and
atomically writes it; returns the new key file. -/
def saveMasterKey (mgr : ManagerState) (password : Option Bytes) :
    Except Err KeyFile :=
  if !optTruthy mgr.master_key || !optTruthy mgr.salt then
    .error (.encryptionError "No master key available to save")
  else
    let mk := mgr.master_key.getD []
    let salt := mgr.salt.getD []
    let base : KeyRecord :=
      { ver := some 1
        salt := some (b64encode salt)
        key_hash := some (sha256hex mk)
        iterations := some ITERATIONS
        encrypted_key := none
        master_key := none }
    let keyData :=
      if optTruthy password then
        let encKey := pbkdf2 (password.getD []) salt (ITERATIONS / 10)
        let encryptedKey := fernetEncrypt (b64encode encKey) mk
        { base with encrypted_key := some (b64encode encryptedKey) }
      else
        { base with master_key := some mk }
    .ok { json := some keyData, raw := jsonSerialize keyData }

/-- The cipher-level unwrap step of `SecureKeyManager._load_v1_key`: either
decrypts `encrypted_key` with the password-derived key, or takes the stored
`master_key` directly (unencrypted branch). -/
def v1Unwrap (salt : Bytes) (iterations : Nat) (r : KeyRecord)
    (password : Option Bytes) : Except Err Bytes :=
  match r.encrypted_key with
  | some encKeyB64 =>
    if !optTruthy password then
      .error (.invalidKey "Password required for encrypted key")
    else
      let encryptedKey := b64decode encKeyB64
      let encKey := pbkdf2 (password.getD []) salt (iterations / 10)
      match fernetDecrypt (b64encode encKey) encryptedKey with
      | none => .error (.invalidKey "Invalid password")
      | some mk => .ok mk
  | none =>
    match r.master_key with
    | some mk => .ok mk
    | none => .error (.invalidKey "Invalid key file format")

/-- `SecureKeyManager._load_v1_key`: unwrap, then validate the recovered
key against the stored `key_hash`.  A Python `KeyError` on a missing
dictionary field is caught by `load_master_key` and surfaced as
`InvalidKeyError("Invalid key file format")`; the embedding returns that
error directly. -/
def loadV1Key (r : KeyRecord) (password : Option Bytes) : Except Err Bytes :=
  match r.salt, r.key_hash, r.iterations with
  | some saltB64, some storedHash, some iterations =>
    match v1Unwrap (b64decode saltB64) iterations r password with
    | .error e => .error e
    | .ok masterKey =>
      if sha256hex masterKey ≠ storedHash then
        .error (.invalidKey "Key integrity check failed")
      else
        .ok masterKey
  | _, _, _ => .error (.invalidKey "Invalid key file format")

/-- `SecureKeyManager._load_legacy_key`: reads the raw file content and
validates it with the `Fernet` constructor. -/
def loadLegacyKey (raw : Bytes) : Except Err Bytes :=
  if fernetValidKey raw then .ok raw
  else .error (.invalidKey "Failed to load legacy key")

/-- `SecureKeyManager.load_master_key`.  `file` is the key file
(`none` when `self.key_path` does not exist). -/
def loadMasterKey (file : Option KeyFile) (password : Option Bytes) :
    Except Err Bytes :=
  match file with
  | none => .error (.keyNotFound "Key file not found")
  | some f =>
    match f.json with
    | none => .error (.invalidKey "Invalid key file format")
    | some r =>
      if r.ver.getD 0 = 1 then loadV1Key r password
      else loadLegacyKey f.raw

/-- `app/storage.py::load_key`: loads through `SecureKeyManager`, falling
back for `KeyNotFoundError`/`InvalidKeyError` to reading the (same, under
the default configuration) key file raw and validating it as a legacy
Fernet key. -/
def loadKey (file : Option KeyFile) (password : Option Bytes) :
    Except Err Bytes :=
  match loadMasterKey file password with
  | .ok k => .ok k
  | .error e =>
    match e with
    | .keyNotFound _ | .invalidKey _ =>
      match file with
      | some f =>
        if fernetValidKey f.raw then .ok f.raw
        else .error (.invalidKey "Failed to load key")
      | none => .error e
    | _ => .error e

/-- `SecureKeyManager.rotate_key` is `generate_master_key` followed by
`save_master_key`; `generateAndSave` is that composition, also used to
describe the key file produced by `generate(p); save(p)`. -/
def generateAndSave (randSalt randPw : Bytes) (password : Option Bytes) :
    Bytes × Except Err KeyFile :=
  let (k, mgr) := generateMasterKey randSalt randPw password
  (k, saveMasterKey mgr password)

/-- The code points of a string literal (readability helper). -/
def str2cp (s : String) : List Nat := s.toList.map Char.toNat

/-- Model of Python `str.strip()` whitespace: the ASCII and Latin-1
whitespace code points (sufficient for the allow-listed characters, whose
only whitespace is space, tab and newline). -/
def isPySpace (c : Nat) : Bool :=
  [9, 10, 11, 12, 13, 28, 29, 30, 31, 32, 133, 160].contains c

/-- Python `str.strip()`. -/
def pyStrip (t : List Nat) : List Nat :=
  ((t.dropWhile isPySpace).reverse.dropWhile isPySpace).reverse

/-- Model of Python `str.upper()` on one code point, exact on the
allow-listed alphabet (ASCII and Latin-1 letters; `ÿ` uppercases to
`Ÿ`, U+0178). -/
def pyToUpper (c : Nat) : Nat :=
  if 97 ≤ c ∧ c ≤ 122 then c - 32
  else if c = 255 then 376
  else if 224 ≤ c ∧ c ≤ 254 ∧ c ≠ 247 then c - 32
  else c

/-- Does `l` start with `pat`? (helper for substring containment) -/
def startsWithSub : List Nat → List Nat → Bool
  | _, [] => true
  | [], _ :: _ => false
  | a :: as, b :: bs => a == b && startsWithSub as bs

/-- Python substring containment `pat in l`. -/
def containsSub : List Nat → List Nat → Bool
  | [], pat => pat.isEmpty
  | a :: as, pat => startsWithSub (a :: as) pat || containsSub as pat

/-- `InputValidator.MAX_REFLECTION_LENGTH` -/
def MAX_REFLECTION_LENGTH : Nat := 5000

/-- `InputValidator.ALLOWED_CHARACTERS` (code 39 is the single quote,
codes 123/125 the braces). -/
def allowedChars : List Nat :=
  str2cp ("abcdefghijklmnopqrstuvwxyzABCDEFGHIJKLMNOPQRSTUVWXYZ0123456789" ++
    " .,!?-()[]\x7b\x7d:;\"\n\t_" ++
    "áéíóúàèìòùâêîôûäëïöüÿñç" ++ "ÁÉÍÓÚÀÈÌÒÙÂÊÎÔÛÄËÏÖÜŸÑÇ") ++ [39]

/-- `dangerous_patterns` of `InputValidator.validate_reflection_text`. -/
def dangerousPatterns : List (List Nat) :=
  ["DROP", "DELETE", "UPDATE", "INSERT", "ALTER", "UNION", "SELECT",
    "SCRIPT", "JAVASCRIPT", "<script", "<?php", "<%", "<asp"].map str2cp

/-- `InputValidator.validate_reflection_text`. -/
def validateReflectionText (text : List Nat) : Except Err (List Nat) :=
  if text.isEmpty then
    .error (.validationError "Reflection text cannot be empty")
  else if MAX_REFLECTION_LENGTH < text.length then
    .error (.validationError "Reflection text too long")
  else if !(text.all (fun c => allowedChars.contains c)) then
    .error (.validationError "Reflection contains invalid characters")
  else if dangerousPatterns.any (fun pat => containsSub (text.map pyToUpper) pat) then
    .error (.validationError "Potentially dangerous content detected")
  else
    .ok (pyStrip text)

/-- Model of `str.encode("utf-8")`: a lossless injective encoding, modelled
as the identity on code-point lists. -/
def utf8Encode (t : List Nat) : Bytes := t

/-- Model of `bytes.decode("utf-8")`: the inverse of `utf8Encode`. -/
def utf8Decode (bs : Bytes) : List Nat := bs

/-- One row of the `reflections` table. -/
structure Row where
  id : Nat
  encrypted_text : Bytes
  checksum : Bytes
  created_at : Nat
  updated_at : Nat
  deriving DecidableEq, Repr

/-- An open `EncryptedVault`: the rows of the `reflections` table (in rowid
order), the next `AUTOINCREMENT` id, and the Fernet key the cipher was
constructed with.  Timestamps are abstract instants (`Nat`). -/
structure VaultState where
  rows : List Row
  nextId : Nat
  key : Bytes
  deriving DecidableEq, Repr

/-- The comparison behind `ORDER BY created_at DESC`. -/
def rowGe (a b : Row) : Prop := b.created_at ≤ a.created_at

instance : DecidableRel rowGe := fun a b => Nat.decLe b.created_at a.created_at

instance : IsTotal Row rowGe := ⟨fun a b => le_total b.created_at a.created_at⟩

instance : IsTrans Row rowGe := ⟨fun _ _ _ h1 h2 => le_trans h2 h1⟩

/-- `ORDER BY created_at DESC`.  SQLite leaves the relative order of rows
with equal `created_at` unspecified; the model commits to a stable sort. -/
def sortByCreatedDesc (l : List Row) : List Row := List.insertionSort rowGe l

/-- `EncryptedVault.add_reflection`; `now` is the value of
`CURRENT_TIMESTAMP` at the insert (`created_at` and `updated_at` default to
it). -/
def addReflection (now : Nat) (text : List Nat) (st : VaultState) :
    Except Err (Nat × VaultState) :=
  match validateReflectionText text with
  | .error e => .error e
  | .ok validatedText =>
    let textBytes := utf8Encode validatedText
    let encrypted := fernetEncrypt st.key textBytes
    let checksum := sha256hex textBytes
    let reflectionId := st.nextId
    .ok (reflectionId,
      { st with
        rows := st.rows ++
          [{ id := reflectionId, encrypted_text := encrypted,
             checksum := checksum, created_at := now, updated_at := now }]
        nextId := st.nextId + 1 })

/-- `EncryptedVault.get_reflection`.  Ids are naturals in the model, so the
Python guard `reflection_id <= 0` becomes `reflectionId = 0`. -/
def getReflection (st : VaultState) (reflectionId : Nat) :
    Except Err (Option (List Nat × Nat × Nat)) :=
  if reflectionId = 0 then
    .error (.validationError "Invalid reflection ID")
  else
    match st.rows.find? (fun r => r.id == reflectionId) with
    | none => .ok none
    | some row =>
      match fernetDecrypt st.key row.encrypted_text with
      | none => .error (.encryptionError "Failed to decrypt reflection")
      | some decryptedBytes =>
        let decryptedText := utf8Decode decryptedBytes
        if sha256hex decryptedBytes ≠ row.checksum then
          .error (.encryptionError "Data integrity check failed")
        else
          .ok (some (decryptedText, row.created_at, row.updated_at))

/-- The per-row body of the `get_all_reflections` loop: `none` models the
`continue` taken on decryption failure or checksum mismatch. -/
def decryptRow (key : Bytes) (r : Row) : Option (Nat × List Nat × Nat × Nat) :=
  match fernetDecrypt key r.encrypted_text with
  | none => none
  | some decryptedBytes =>
    if sha256hex decryptedBytes ≠ r.checksum then none
    else some (r.id, utf8Decode decryptedBytes, r.created_at, r.updated_at)

/-- `EncryptedVault.get_all_reflections`. -/
def getAllReflections (st : VaultState) : List (Nat × List Nat × Nat × Nat) :=
  (sortByCreatedDesc st.rows).filterMap (decryptRow st.key)

/-- The fixed plaintext of the constructor's cipher self-test. -/
def TEST_DATA : Bytes := str2cp "test_encryption"

/-- The `except` clause of `EncryptedVault.__init__`: `DatabaseError` and
`EncryptionError` (with its subclasses) are re-raised unchanged; everything
else is wrapped as `DatabaseError`.  (The `"cryptography" in str(type(e))`
branch re-raises cipher-library exceptions as `EncryptionError`; no such
exception escapes the modelled constructor body, so that branch is dead
here.) -/
def initErrWrap (e : Err) : Err :=
  if e.isDbOrEncErr then e
  else .databaseError ("Database initialization failed: " ++ e.msg)

/-- `EncryptedVault.__init__`.  `existing` is the content of the backing
table at `db_path` (rows and next `AUTOINCREMENT` id; a fresh database is
`([], 1)`).  Database I/O itself is assumed to succeed (local disk);
`validate_key_strength` only logs a warning and is omitted. -/
def initEncryptedVault (dbPath : List Nat) (key : Bytes)
    (existing : List Row × Nat) : Except Err VaultState :=
  let body : Except Err VaultState :=
    if dbPath.isEmpty then
      .error (.valueError "Database path cannot be empty")
    else if key.isEmpty || key.length < 16 then
      .error (.valueError "Invalid encryption key")
    else if !fernetValidKey key then
      .error (.valueError "Fernet key must be 32 url-safe base64-encoded bytes.")
    else if fernetDecrypt key (fernetEncrypt key TEST_DATA) ≠ some TEST_DATA then
      .error (.encryptionError "Encryption self-test failed")
    else
      .ok { rows := existing.1, nextId := existing.2, key := key }
  match body with
  | .ok st => .ok st
  | .error e => .error (initErrWrap e)

/-- A key manager, its key file, and an `EncryptedVault` over the same
master key material: the state `rotate_key` acts on. -/
structure SystemState where
  mgr : ManagerState
  keyFile : Option KeyFile
  vault : VaultState
  deriving DecidableEq, Repr

/-- `SecureKeyManager.rotate_key`, lifted to the combined state: generates
a fresh key (randomness passed in) and saves it over the key file.  The
`reflections` table is not referenced by the source of `rotate_key`. -/
def rotateKey (sys : SystemState) (randSalt randPw : Bytes)
    (newPassword : Option Bytes) : Except Err (Bytes × SystemState) :=
  let gen := generateMasterKey randSalt randPw newPassword
  match saveMasterKey gen.2 newPassword with
  | .error e => .error e
  | .ok file =>
    .ok (gen.1, { mgr := gen.2, keyFile := some file, vault := sys.vault })

/-- A row as `add_reflection` writes it: a genuine ciphertext of some
plaintext under the vault key, together with the checksum of that plaintext. -/
def rowWellFormed (key : Bytes) (r : Row) : Prop :=
  ∃ m, r.encrypted_text = fernetEncrypt key m ∧ r.checksum = sha256hex m

/-- The master key produced by `generate_master_key` with salt `randSalt`
and random password material `randPw`. -/
def genKeyBytes (randSalt randPw : Bytes) (password : Option Bytes) : Bytes :=
  b64encode (pbkdf2 (if optTruthy password then password.getD [] else randPw)
    randSalt ITERATIONS)

/-- The key record `save_master_key(password)` writes right after
`generate_master_key(password)` drew salt `randSalt`. -/
def genRecord (randSalt randPw : Bytes) (password : Option Bytes) : KeyRecord :=
  { ver := some 1
    salt := some (b64encode randSalt)
    key_hash := some (sha256hex (genKeyBytes randSalt randPw password))
    iterations := some ITERATIONS
    encrypted_key :=
      if optTruthy password then
        some (b64encode (fernetEncrypt
          (b64encode (pbkdf2 (password.getD []) randSalt (ITERATIONS / 10)))
          (genKeyBytes randSalt randPw password)))
      else none
    master_key :=
      if optTruthy password then none
      else some (genKeyBytes randSalt randPw password) }

/-- The key file written by `generate_master_key(password)` followed by
`save_master_key(password)`. -/
def genFile (randSalt randPw : Bytes) (password : Option Bytes) : KeyFile :=
  { json := some (genRecord randSalt randPw password)
    raw := jsonSerialize (genRecord randSalt randPw password) }

def exceptDecEq {ε α : Type} [DecidableEq ε] [DecidableEq α] :
    DecidableEq (Except ε α)
  | .error e, .error f =>
    if h : e = f then isTrue (by rw [h]) else
      isFalse (fun c => h (Except.error.inj c))
  | .error _, .ok _ => isFalse Except.noConfusion
  | .ok _, .error _ => isFalse Except.noConfusion
  | .ok a, .ok b =>
    if h : a = b then isTrue (by rw [h]) else
      isFalse (fun c => h (Except.ok.inj c))

instance {ε α : Type} [DecidableEq ε] [DecidableEq α] :
    DecidableEq (Except ε α) := exceptDecEq

/-! ## Theorems -/

theorem sha256hex_inj {a b : Bytes} (h : sha256hex a = sha256hex b) : a = b := by
  unfold sha256hex at h
  exact (List.cons.inj h).2

theorem pbkdf2_inj {p p' s : Bytes} {i i' : Nat}
    (h : pbkdf2 p s i = pbkdf2 p' s i') : p = p' ∧ i = i' := by
  unfold pbkdf2 at h
  obtain ⟨hlen, hrest⟩ := List.cons.inj h
  obtain ⟨hi, happ⟩ := List.cons.inj hrest
  exact ⟨(List.append_inj happ hlen).1, hi⟩

theorem fernetDecrypt_encrypt (key msg : Bytes) :
    fernetDecrypt key (fernetEncrypt key msg) = some msg := by
  show fernetDecrypt key (msg.length :: (msg ++ key ++ msg)) = some msg
  have htake : (msg ++ key ++ msg).take msg.length = msg := by
    rw [List.append_assoc]
    exact List.take_left msg (key ++ msg)
  have hdrop : (msg ++ key ++ msg).drop msg.length = key ++ msg := by
    rw [List.append_assoc]
    exact List.drop_left msg (key ++ msg)
  have hle : msg.length ≤ (msg ++ key ++ msg).length := by
    simp [List.length_append]
  simp only [fernetDecrypt, htake, hdrop]
  rw [if_pos ⟨hle, trivial⟩]

/-- Authentication: a successful decryption identifies the ciphertext as a
genuine encryption of the recovered message under the same key. -/
theorem fernetDecrypt_some {key ct msg : Bytes}
    (h : fernetDecrypt key ct = some msg) : ct = fernetEncrypt key msg := by
  match ct with
  | [] => simp [fernetDecrypt] at h
  | n :: rest =>
    simp only [fernetDecrypt] at h
    split at h
    case isTrue hc =>
      obtain ⟨h1, h2⟩ := hc
      obtain rfl : rest.take n = msg := Option.some.inj h
      have hlen : (rest.take n).length = n := by
        rw [List.length_take]
        omega
      have hrest : rest = rest.take n ++ (key ++ rest.take n) := by
        conv_lhs => rw [← List.take_append_drop n rest]
        rw [h2]
      unfold fernetEncrypt
      rw [hlen]
      simp only [List.cons_append, List.append_assoc]
      rw [← hrest]
    case isFalse => simp at h

/-- Decryption with a different key always fails. -/
theorem fernetDecrypt_wrong_key {key key' msg : Bytes} (h : key' ≠ key) :
    fernetDecrypt key' (fernetEncrypt key msg) = none := by
  cases hdec : fernetDecrypt key' (fernetEncrypt key msg) with
  | none => rfl
  | some m =>
    exfalso
    have henc := fernetDecrypt_some hdec
    unfold fernetEncrypt at henc
    simp only [List.cons_append, List.append_assoc] at henc
    obtain ⟨hlen, happ⟩ := List.cons.inj henc
    obtain ⟨hmm, hkk⟩ := List.append_inj happ hlen
    subst hmm
    have hkl : key.length = key'.length := by
      have := congrArg List.length hkk
      simp only [List.length_append] at this
      omega
    obtain ⟨hk, -⟩ := List.append_inj hkk hkl
    exact h hk.symm

theorem fernetValidKey_jsonSerialize (r : KeyRecord) :
    fernetValidKey (jsonSerialize r) = false := by
  unfold fernetValidKey jsonSerialize
  rw [List.cons_append, List.all_cons]
  simp [isB64UrlByte]

theorem decryptRow_of_wellFormed {key m : Bytes} {r : Row}
    (hct : r.encrypted_text = fernetEncrypt key m)
    (hcs : r.checksum = sha256hex m) :
    decryptRow key r = some (r.id, utf8Decode m, r.created_at, r.updated_at) := by
  unfold decryptRow
  simp [hct, hcs, fernetDecrypt_encrypt]

theorem decryptRow_some_fields {key : Bytes} {r : Row} {e}
    (h : decryptRow key r = some e) :
    e.1 = r.id ∧ e.2.2.1 = r.created_at ∧ e.2.2.2 = r.updated_at := by
  unfold decryptRow at h
  split at h
  · simp at h
  · split at h
    · simp at h
    · obtain rfl := Option.some.inj h
      exact ⟨rfl, rfl, rfl⟩

/-- Tampering with the ciphertext of a well-formed row makes the
`get_all_reflections` loop body skip it. -/
theorem decryptRow_tamperCt {key m : Bytes} {r : Row}
    (hct : r.encrypted_text ≠ fernetEncrypt key m)
    (hcs : r.checksum = sha256hex m) :
    decryptRow key r = none := by
  unfold decryptRow
  cases hdec : fernetDecrypt key r.encrypted_text with
  | none => rfl
  | some m' =>
    have hgen := fernetDecrypt_some hdec
    have hne : m' ≠ m := fun he => hct (he ▸ hgen)
    have hcond : sha256hex m' ≠ r.checksum :=
      fun heq => hne (sha256hex_inj (heq.trans hcs))
    simp [hcond]

/-- Tampering with the checksum of a well-formed row makes the
`get_all_reflections` loop body skip it. -/
theorem decryptRow_tamperCs {key m : Bytes} {r : Row}
    (hct : r.encrypted_text = fernetEncrypt key m)
    (hcs : r.checksum ≠ sha256hex m) :
    decryptRow key r = none := by
  unfold decryptRow
  simp only [hct, fernetDecrypt_encrypt]
  rw [if_pos (Ne.symm hcs)]

theorem find?_id_append {A l2 : List Row} {i : Nat}
    (hA : ∀ r ∈ A, r.id ≠ i) :
    (A ++ l2).find? (fun r => r.id == i) = l2.find? (fun r => r.id == i) := by
  rw [List.find?_append]
  have hnone : A.find? (fun r => r.id == i) = none :=
    List.find?_eq_none.mpr (fun r hr => by simp [hA r hr])
  rw [hnone, Option.none_or]

theorem getReflection_found {st : VaultState} {i : Nat} {row : Row}
    (hi : i ≠ 0)
    (hfind : st.rows.find? (fun r => r.id == i) = some row) :
    getReflection st i =
      match fernetDecrypt st.key row.encrypted_text with
      | none => .error (.encryptionError "Failed to decrypt reflection")
      | some m =>
        if sha256hex m ≠ row.checksum then
          .error (.encryptionError "Data integrity check failed")
        else
          .ok (some (utf8Decode m, row.created_at, row.updated_at)) := by
  unfold getReflection
  rw [if_neg hi, hfind]

/-- When the loop body would skip a row, `get_reflection` on its id raises
`EncryptionError` (one of the two messages, depending on which check
failed). -/
theorem getReflection_err_of_decryptRow_none {st : VaultState} {i : Nat}
    {row : Row} (hi : i ≠ 0)
    (hfind : st.rows.find? (fun r => r.id == i) = some row)
    (hnone : decryptRow st.key row = none) :
    ∃ msg, getReflection st i = .error (.encryptionError msg) := by
  rw [getReflection_found hi hfind]
  unfold decryptRow at hnone
  cases hdec : fernetDecrypt st.key row.encrypted_text with
  | none => exact ⟨"Failed to decrypt reflection", by simp [hdec]⟩
  | some m =>
    simp only [hdec] at hnone
    by_cases hcs : sha256hex m ≠ row.checksum
    · exact ⟨"Data integrity check failed", by simp [hdec, if_pos hcs]⟩
    · rw [if_neg hcs] at hnone
      simp at hnone

theorem getReflection_ok_of_wellFormed {st : VaultState} {i : Nat}
    {row : Row} {m : Bytes} (hi : i ≠ 0)
    (hfind : st.rows.find? (fun r => r.id == i) = some row)
    (hct : row.encrypted_text = fernetEncrypt st.key m)
    (hcs : row.checksum = sha256hex m) :
    getReflection st i = .ok (some (utf8Decode m, row.created_at, row.updated_at)) := by
  rw [getReflection_found hi hfind]
  simp [hct, hcs, fernetDecrypt_encrypt]

theorem mem_sortByCreatedDesc {r : Row} {l : List Row} :
    r ∈ sortByCreatedDesc l ↔ r ∈ l :=
  List.mem_insertionSort rowGe

theorem getAll_mem_of_wellFormed {st : VaultState} {r : Row} {m : Bytes}
    (hr : r ∈ st.rows)
    (hct : r.encrypted_text = fernetEncrypt st.key m)
    (hcs : r.checksum = sha256hex m) :
    (r.id, utf8Decode m, r.created_at, r.updated_at) ∈ getAllReflections st := by
  unfold getAllReflections
  exact List.mem_filterMap.mpr
    ⟨r, mem_sortByCreatedDesc.mpr hr, decryptRow_of_wellFormed hct hcs⟩

theorem getAll_mem_imp {st : VaultState} {e}
    (he : e ∈ getAllReflections st) :
    ∃ r ∈ st.rows, decryptRow st.key r = some e := by
  unfold getAllReflections at he
  obtain ⟨r, hr, hd⟩ := List.mem_filterMap.mp he
  exact ⟨r, mem_sortByCreatedDesc.mp hr, hd⟩

/-- The output of `get_all_reflections` is ordered by `created_at`,
newest first. -/
theorem getAll_sorted_desc (st : VaultState) :
    (getAllReflections st).Pairwise (fun a b => b.2.2.1 ≤ a.2.2.1) := by
  unfold getAllReflections
  apply List.Pairwise.filterMap (decryptRow st.key)
    (fun a b (hab : rowGe a b) c hc d hd => ?_)
    (List.sorted_insertionSort rowGe st.rows)
  have hc2 := (decryptRow_some_fields hc).2.1
  have hd2 := (decryptRow_some_fields hd).2.1
  rw [hc2, hd2]
  exact hab

theorem addReflection_ok {now : Nat} {text validated : List Nat}
    {st : VaultState}
    (hval : validateReflectionText text = .ok validated) :
    addReflection now text st = .ok (st.nextId,
      { st with
        rows := st.rows ++
          [{ id := st.nextId,
             encrypted_text := fernetEncrypt st.key (utf8Encode validated),
             checksum := sha256hex (utf8Encode validated),
             created_at := now, updated_at := now }]
        nextId := st.nextId + 1 }) := by
  unfold addReflection
  rw [hval]

theorem optTruthy_some {bs : Bytes} (h : bs ≠ []) : optTruthy (some bs) = true := by
  cases bs with
  | nil => exact absurd rfl h
  | cons a as => rfl

theorem pbkdf2_ne_nil (p s : Bytes) (i : Nat) : pbkdf2 p s i ≠ [] := by
  simp [pbkdf2]

theorem generateMasterKey_eq (randSalt randPw : Bytes) (password : Option Bytes) :
    generateMasterKey randSalt randPw password =
      (genKeyBytes randSalt randPw password,
       { master_key := some (genKeyBytes randSalt randPw password)
         salt := some randSalt }) := rfl

theorem saveMasterKey_after_generate {randSalt randPw : Bytes}
    {password : Option Bytes} (hs : randSalt ≠ []) :
    saveMasterKey
      { master_key := some (genKeyBytes randSalt randPw password)
        salt := some randSalt } password =
      .ok { json := some (genRecord randSalt randPw password)
            raw := jsonSerialize (genRecord randSalt randPw password) } := by
  have h1 : optTruthy (some (genKeyBytes randSalt randPw password)) = true :=
    optTruthy_some (by unfold genKeyBytes b64encode; exact pbkdf2_ne_nil _ _ _)
  have h2 : optTruthy (some randSalt) = true := optTruthy_some hs
  unfold saveMasterKey
  rw [h1, h2]
  simp only [Bool.not_true, Bool.or_self, Bool.false_eq_true, if_false]
  by_cases hp : optTruthy password
  · rw [if_pos hp]
    unfold genRecord
    rw [if_pos hp, if_pos hp]
    rfl
  · rw [if_neg hp]
    unfold genRecord
    rw [if_neg hp, if_neg hp]
    rfl

theorem generateAndSave_eq {randSalt randPw : Bytes} {password : Option Bytes}
    (hs : randSalt ≠ []) :
    generateAndSave randSalt randPw password =
      (genKeyBytes randSalt randPw password,
       .ok { json := some (genRecord randSalt randPw password)
             raw := jsonSerialize (genRecord randSalt randPw password) }) := by
  unfold generateAndSave
  rw [generateMasterKey_eq]
  exact congrArg (Prod.mk (genKeyBytes randSalt randPw password))
    (saveMasterKey_after_generate hs)

/-- Loading the file written by `generate(password); save(password)` with
the same password recovers the generated key. -/
theorem loadMasterKey_genRecord {randSalt randPw : Bytes}
    {password : Option Bytes} :
    loadMasterKey
      (some { json := some (genRecord randSalt randPw password)
              raw := jsonSerialize (genRecord randSalt randPw password) })
      password = .ok (genKeyBytes randSalt randPw password) := by
  by_cases hp : optTruthy password
  · simp [loadMasterKey, loadV1Key, v1Unwrap, genRecord, b64encode, b64decode,
      hp, fernetDecrypt_encrypt]
  · simp [loadMasterKey, loadV1Key, v1Unwrap, genRecord, b64encode, b64decode,
      hp]

theorem pyStrip_length_le (t : List Nat) :
    (pyStrip t).length ≤ (t.dropWhile isPySpace).length := by
  unfold pyStrip
  rw [List.length_reverse]
  calc ((t.dropWhile isPySpace).reverse.dropWhile isPySpace).length
      ≤ (t.dropWhile isPySpace).reverse.length :=
        (List.dropWhile_suffix isPySpace).sublist.length_le
    _ = (t.dropWhile isPySpace).length := List.length_reverse _

theorem pyStrip_ne_of_head_space {t : List Nat} {c : Nat}
    (hhead : t.head? = some c) (hsp : isPySpace c = true) : pyStrip t ≠ t := by
  intro heq
  cases t with
  | nil => simp at hhead
  | cons a rest =>
    have hac : a = c := by simpa using hhead
    have hspa : isPySpace a = true := by rw [hac]; exact hsp
    have h1 := pyStrip_length_le (a :: rest)
    rw [heq, List.dropWhile_cons, if_pos hspa] at h1
    have h2 : (rest.dropWhile isPySpace).length ≤ rest.length :=
      (List.dropWhile_suffix isPySpace).sublist.length_le
    simp only [List.length_cons] at h1
    omega

theorem pyStrip_ne_of_last_space {t : List Nat} {c : Nat}
    (hlast : t.getLast? = some c) (hsp : isPySpace c = true) : pyStrip t ≠ t := by
  intro heq
  have hlen1 : (pyStrip t).length = t.length := by rw [heq]
  have hle1 := pyStrip_length_le t
  have hle2 : (t.dropWhile isPySpace).length ≤ t.length :=
    (List.dropWhile_suffix isPySpace).sublist.length_le
  have hdl : (t.dropWhile isPySpace).length = t.length := by omega
  have hdt : t.dropWhile isPySpace = t :=
    (List.dropWhile_suffix isPySpace).eq_of_length hdl
  have hrev : t.reverse.head? = some c := by
    rw [List.head?_reverse]
    exact hlast
  obtain ⟨tl, hrv⟩ : ∃ tl, t.reverse = c :: tl := by
    cases hr : t.reverse with
    | nil => rw [hr] at hrev; simp at hrev
    | cons a as =>
      rw [hr] at hrev
      obtain rfl : a = c := by simpa using hrev
      exact ⟨as, rfl⟩
  have hps : pyStrip t = ((t.reverse).dropWhile isPySpace).reverse := by
    unfold pyStrip
    rw [hdt]
  rw [hrv, List.dropWhile_cons, if_pos hsp] at hps
  have hfin : (pyStrip t).length ≤ tl.length := by
    rw [hps, List.length_reverse]
    exact (List.dropWhile_suffix isPySpace).sublist.length_le
  have hcount : tl.length + 1 = t.length := by
    have := congrArg List.length hrv
    simp only [List.length_reverse, List.length_cons] at this
    omega
  omega

theorem validateReflectionText_ok {t v : List Nat}
    (h : validateReflectionText t = .ok v) : v = pyStrip t ∧ t ≠ [] := by
  unfold validateReflectionText at h
  split_ifs at h with h1 h2 h3 h4
  have hv : pyStrip t = v := by simpa using h
  exact ⟨hv.symm, fun hnil => h1 (by simp [hnil])⟩

theorem set_ne_of_getElem_ne {l : List Nat} {i b : Nat}
    (hi : i < l.length) (hb : l[i]? ≠ some b) : l.set i b ≠ l := by
  intro heq
  have hi' : i < (l.set i b).length := by
    rw [List.length_set]
    exact hi
  have hset : (l.set i b)[i]? = some b := by
    rw [List.getElem?_eq_getElem hi', List.getElem_set_self]
  rw [heq] at hset
  exact hb hset

/-- After a validated `add_reflection`, `get_reflection` on the returned id
recovers the stripped text and the insert-time timestamps. -/
theorem addGet_roundtrip {now : Nat} {t validated : List Nat} {st : VaultState}
    (hval : validateReflectionText t = .ok validated)
    (hinv : ∀ r ∈ st.rows, r.id < st.nextId) (hpos : 0 < st.nextId) :
    ∃ st', addReflection now t st = .ok (st.nextId, st') ∧
      getReflection st' st.nextId = .ok (some (pyStrip t, now, now)) := by
  obtain ⟨hv, -⟩ := validateReflectionText_ok hval
  subst hv
  refine ⟨_, addReflection_ok hval, ?_⟩
  have hfind : (st.rows ++
      [({ id := st.nextId,
          encrypted_text := fernetEncrypt st.key (utf8Encode (pyStrip t)),
          checksum := sha256hex (utf8Encode (pyStrip t)),
          created_at := now, updated_at := now } : Row)]).find?
      (fun r : Row => r.id == st.nextId) = some
      ({ id := st.nextId,
         encrypted_text := fernetEncrypt st.key (utf8Encode (pyStrip t)),
         checksum := sha256hex (utf8Encode (pyStrip t)),
         created_at := now, updated_at := now } : Row) := by
    rw [find?_id_append (fun r hr => Nat.ne_of_lt (hinv r hr))]
    rw [List.find?_cons_of_pos]
    simp
  exact @getReflection_ok_of_wellFormed _ st.nextId
    ({ id := st.nextId,
       encrypted_text := fernetEncrypt st.key (utf8Encode (pyStrip t)),
       checksum := sha256hex (utf8Encode (pyStrip t)),
       created_at := now, updated_at := now } : Row)
    (utf8Encode (pyStrip t)) (Nat.pos_iff_ne_zero.mp hpos) hfind rfl rfl

/-- C1: for a (nonempty) password `p`, after `generate(p); save(p)` the key
file holds a wrapped key, and loading it while supplying any password
`wp ≠ p` always raises `InvalidKeyError` — both through
`SecureKeyManager.load_master_key` and through `storage.load_key` with its
legacy raw-file fallback — and never returns a key. -/
theorem c1_wrong_password_invalid_key {p wp randSalt randPw : Bytes}
    (hs : randSalt ≠ []) (hp : p ≠ []) (hne : wp ≠ p) :
    (generateAndSave randSalt randPw (some p)).2 =
      .ok (genFile randSalt randPw (some p)) ∧
    (∃ m, loadMasterKey (some (genFile randSalt randPw (some p))) (some wp) =
      .error (.invalidKey m)) ∧
    (∃ m, loadKey (some (genFile randSalt randPw (some p))) (some wp) =
      .error (.invalidKey m)) ∧
    (∀ k, loadMasterKey (some (genFile randSalt randPw (some p))) (some wp) ≠
      .ok k) ∧
    (∀ k, loadKey (some (genFile randSalt randPw (some p))) (some wp) ≠ .ok k) := by
  have hfile : (generateAndSave randSalt randPw (some p)).2 =
      .ok (genFile randSalt randPw (some p)) := by
    rw [generateAndSave_eq hs]
    rfl
  have hload : ∃ m, loadMasterKey (some (genFile randSalt randPw (some p)))
      (some wp) = .error (.invalidKey m) := by
    by_cases hw : wp = []
    · subst hw
      refine ⟨"Password required for encrypted key", ?_⟩
      simp [loadMasterKey, genFile, loadV1Key, v1Unwrap, genRecord,
        optTruthy_some hp, optTruthy, b64encode, b64decode, hp]
    · refine ⟨"Invalid password", ?_⟩
      have hkeyne : pbkdf2 wp randSalt (ITERATIONS / 10) ≠
          pbkdf2 p randSalt (ITERATIONS / 10) :=
        fun hh => hne (pbkdf2_inj hh).1
      have hdec := @fernetDecrypt_wrong_key
        (pbkdf2 p randSalt (ITERATIONS / 10))
        (pbkdf2 wp randSalt (ITERATIONS / 10))
        (genKeyBytes randSalt randPw (some p)) hkeyne
      simp [loadMasterKey, genFile, loadV1Key, v1Unwrap, genRecord,
        optTruthy_some hp, optTruthy_some hw, b64encode, b64decode, hdec, hp, hw]
  obtain ⟨m, hm⟩ := hload
  have hlk : loadKey (some (genFile randSalt randPw (some p))) (some wp) =
      .error (.invalidKey "Failed to load key") := by
    unfold loadKey
    rw [hm]
    simp [genFile, fernetValidKey_jsonSerialize]
  refine ⟨hfile, ⟨m, hm⟩, ⟨"Failed to load key", hlk⟩, ?_, ?_⟩
  · intro k hk
    rw [hm] at hk
    exact Except.noConfusion hk
  · intro k hk
    rw [hlk] at hk
    exact Except.noConfusion hk

/-- C1 witness: a concrete instance of the wrong-password theorem. -/
theorem c1_witness :
    (∃ m, loadMasterKey (some (genFile [3] [4] (some [1]))) (some [2]) =
      .error (.invalidKey m)) ∧
    (∃ m, loadKey (some (genFile [3] [4] (some [1]))) (some [2]) =
      .error (.invalidKey m)) := by
  have h := @c1_wrong_password_invalid_key [1] [2] [3] [4]
    (by decide) (by decide) (by decide)
  exact ⟨h.2.1, h.2.2.1⟩

/-- C2: after every successful version-1 load (password-wrapped or
unencrypted branch alike) the digest of the recovered master key equals the
stored `key_hash`; and whenever the cipher-level unwrap itself succeeds but
the digest differs from the stored hash, `_load_v1_key` raises
`InvalidKeyError("Key integrity check failed")` — a hard failure, never a
warning. -/
theorem c2_key_hash_invariant :
    (∀ (r : KeyRecord) (pw : Option Bytes) (k : Bytes),
      loadV1Key r pw = .ok k → r.key_hash = some (sha256hex k)) ∧
    (∀ (r : KeyRecord) (pw : Option Bytes) (k saltB64 storedHash : Bytes)
        (iters : Nat),
      r.salt = some saltB64 → r.key_hash = some storedHash →
      r.iterations = some iters →
      v1Unwrap (b64decode saltB64) iters r pw = .ok k →
      sha256hex k ≠ storedHash →
      loadV1Key r pw = .error (.invalidKey "Key integrity check failed")) := by
  constructor
  · intro r pw k h
    obtain ⟨ver, salt, kh, iters, ek, mk⟩ := r
    cases salt with
    | none => exact Except.noConfusion h
    | some saltB64 =>
      cases kh with
      | none => exact Except.noConfusion h
      | some storedHash =>
        cases iters with
        | none => exact Except.noConfusion h
        | some iterations =>
          simp only [loadV1Key] at h
          cases hu : v1Unwrap (b64decode saltB64) iterations
              ⟨ver, some saltB64, some storedHash, some iterations, ek, mk⟩ pw with
          | error e =>
            rw [hu] at h
            exact Except.noConfusion h
          | ok mk2 =>
            rw [hu] at h
            dsimp only at h
            by_cases hcs : sha256hex mk2 ≠ storedHash
            · rw [if_pos hcs] at h
              exact Except.noConfusion h
            · rw [if_neg hcs] at h
              obtain rfl : mk2 = k := Except.ok.inj h
              push_neg at hcs
              rw [hcs]
  · intro r pw k saltB64 storedHash iters hsalt hkh hit hu hne
    obtain ⟨ver, salt, kh, iters', ek, mk⟩ := r
    obtain rfl : salt = some saltB64 := hsalt
    obtain rfl : kh = some storedHash := hkh
    obtain rfl : iters' = some iters := hit
    simp only [loadV1Key]
    rw [hu]
    dsimp only
    rw [if_pos hne]

/-- C2 witness: a concrete record whose unencrypted master key fails the
`key_hash` check and is rejected. -/
theorem c2_witness :
    loadV1Key
      { ver := some 1, salt := some [], key_hash := some [9]
        iterations := some 0, encrypted_key := none, master_key := some [1, 2] }
      none = .error (.invalidKey "Key integrity check failed") :=
  c2_key_hash_invariant.2
    { ver := some 1, salt := some [], key_hash := some [9]
      iterations := some 0, encrypted_key := none, master_key := some [1, 2] }
    none [1, 2] [] [9] 0 rfl rfl rfl rfl (by decide)

/-- C3: for every password (including the no-password and empty cases) and
every draw of the randomness, `generate(p); save(p)` succeeds and writing
then loading the key file with the same password returns the key
byte-identical; moreover the version-1 loader re-derives the unwrapping key
from the salt and iteration count stored in the file (arbitrary `iters`,
not the global constant). -/
theorem c3_key_roundtrip :
    (∀ (password : Option Bytes) (randSalt randPw : Bytes), randSalt ≠ [] →
      generateAndSave randSalt randPw password =
        (genKeyBytes randSalt randPw password,
         .ok (genFile randSalt randPw password)) ∧
      loadMasterKey (some (genFile randSalt randPw password)) password =
        .ok (genKeyBytes randSalt randPw password)) ∧
    (∀ (p salt mk : Bytes) (iters : Nat), p ≠ [] →
      loadV1Key
        { ver := some 1, salt := some (b64encode salt)
          key_hash := some (sha256hex mk), iterations := some iters
          encrypted_key := some (b64encode (fernetEncrypt
            (b64encode (pbkdf2 p salt (iters / 10))) mk))
          master_key := none } (some p) = .ok mk) := by
  constructor
  · intro password randSalt randPw hs
    exact ⟨generateAndSave_eq hs, loadMasterKey_genRecord⟩
  · intro p salt mk iters hp
    simp [loadV1Key, v1Unwrap, optTruthy_some hp, b64encode, b64decode,
      fernetDecrypt_encrypt, hp]

/-- C3 witness: a concrete round-trip through generate, save and load. -/
theorem c3_witness :
    loadMasterKey (some (genFile [3] [4] (some [1]))) (some [1]) =
      .ok [1, 100000, 1, 3] := by
  rw [(c3_key_roundtrip.1 (some [1]) [3] [4] (by decide)).2]
  rfl

/-- C4 counterexample: the text `"a "` passes validation, but
`get_reflection` after `add_reflection` returns the stripped text `"a"`,
not the submitted text `"a "` — the claimed
`get(add(t)) = (t, created_at, updated_at)` fails at `t = "a "`. -/
theorem c4_counterexample :
    validateReflectionText (str2cp "a ") = .ok (str2cp "a") ∧
    addReflection 5 (str2cp "a ") ⟨[], 1, [7]⟩ =
      .ok (1, ⟨[⟨1, fernetEncrypt [7] (str2cp "a"),
        sha256hex (str2cp "a"), 5, 5⟩], 2, [7]⟩) ∧
    getReflection ⟨[⟨1, fernetEncrypt [7] (str2cp "a"),
        sha256hex (str2cp "a"), 5, 5⟩], 2, [7]⟩ 1 =
      .ok (some (str2cp "a", 5, 5)) ∧
    str2cp "a" ≠ str2cp "a " :=
  ⟨rfl, rfl, rfl, by decide⟩

/-- C4 (amended): for every text accepted by validation, `add_reflection`
returns the fresh id `nextId` (distinct from every stored id), and
`get_reflection` of that id returns exactly the *stripped* text together
with `created_at = updated_at` set to the insert time (so
`created_at ≤ updated_at`). -/
theorem c4_amended_roundtrip {t validated : List Nat} {st : VaultState}
    {now : Nat}
    (hval : validateReflectionText t = .ok validated)
    (hinv : ∀ r ∈ st.rows, r.id < st.nextId) (hpos : 0 < st.nextId) :
    (∀ r ∈ st.rows, r.id ≠ st.nextId) ∧
    ∃ st', addReflection now t st = .ok (st.nextId, st') ∧
      getReflection st' st.nextId = .ok (some (pyStrip t, now, now)) ∧
      now ≤ now := by
  refine ⟨fun r hr => Nat.ne_of_lt (hinv r hr), ?_⟩
  obtain ⟨st', h1, h2⟩ := addGet_roundtrip hval hinv hpos
  exact ⟨st', h1, h2, le_refl now⟩

/-- C4 witness: the amended round-trip at a concrete input. -/
theorem c4_witness :
    (∀ r ∈ ([] : List Row), r.id ≠ 1) ∧
    ∃ st', addReflection 3 (str2cp "hi") ⟨[], 1, [7]⟩ = .ok (1, st') ∧
      getReflection st' 1 = .ok (some (pyStrip (str2cp "hi"), 3, 3)) ∧
      3 ≤ 3 :=
  @c4_amended_roundtrip (str2cp "hi") (str2cp "hi") ⟨[], 1, [7]⟩ 3 rfl
    (by simp) (by decide)

/-- C6: when the parsed key record has a missing or zero `version` field,
`load_master_key` falls back to legacy loading — it returns the raw file
content directly as the key when that content is a well-formed Fernet key,
and rejects it with `InvalidKeyError` otherwise. -/
theorem c6_legacy_fallback {f : KeyFile} {r : KeyRecord} {pw : Option Bytes}
    (hjson : f.json = some r) (hver : r.ver = none ∨ r.ver = some 0) :
    loadMasterKey (some f) pw =
      (if fernetValidKey f.raw then .ok f.raw
       else .error (.invalidKey "Failed to load legacy key")) := by
  obtain ⟨json, raw⟩ := f
  obtain rfl : json = some r := hjson
  unfold loadMasterKey
  dsimp only
  have hne : r.ver.getD 0 ≠ 1 := by
    rcases hver with h | h <;> rw [h] <;> decide
  rw [if_neg hne]
  unfold loadLegacyKey
  rfl

/-- C6 witness: a version-less key file whose raw content is a well-formed
Fernet key is returned as the key. -/
theorem c6_witness :
    loadMasterKey
      (some { json := some { ver := none, salt := none, key_hash := none,
                             iterations := none, encrypted_key := none,
                             master_key := none }
              raw := List.replicate 44 65 }) none =
      .ok (List.replicate 44 65) := by
  rw [c6_legacy_fallback rfl (Or.inl rfl)]
  decide

/-- C7 counterexample: constructing an `EncryptedVault` with an 8-byte key
fails, but with a `DatabaseError` (wrapping the internal `ValueError`), not
with a `ValueError`-class error as claimed. -/
theorem c7_counterexample :
    initEncryptedVault (str2cp "test.db") [1, 2, 3, 4, 5, 6, 7, 8] ([], 1) =
      .error (.databaseError "Database initialization failed: Invalid encryption key") ∧
    (∀ m, initEncryptedVault (str2cp "test.db") [1, 2, 3, 4, 5, 6, 7, 8] ([], 1) ≠
      .error (.valueError m)) := by
  refine ⟨rfl, ?_⟩
  intro m hm
  rw [show initEncryptedVault (str2cp "test.db") [1, 2, 3, 4, 5, 6, 7, 8] ([], 1) =
    .error (.databaseError "Database initialization failed: Invalid encryption key")
    from rfl] at hm
  exact Err.noConfusion (Except.error.inj hm)

/-- C7 (amended): a key shorter than 16 bytes is rejected immediately
(before any table state is produced), and the `ValueError` raised by the
input check is wrapped by the constructor into
`DatabaseError("Database initialization failed: Invalid encryption key")`. -/
theorem c7_amended_short_key {dbPath key : List Nat} {existing : List Row × Nat}
    (hdb : dbPath ≠ []) (hkey : key.length < 16) :
    initEncryptedVault dbPath key existing =
      .error (.databaseError "Database initialization failed: Invalid encryption key") := by
  unfold initEncryptedVault
  have h1 : dbPath.isEmpty = false := by
    cases dbPath with
    | nil => exact absurd rfl hdb
    | cons a as => rfl
  have h2 : (key.isEmpty || decide (key.length < 16)) = true := by
    simp [hkey]
  rw [h1]
  dsimp only [Bool.false_eq_true, if_false]
  rw [h2]
  rfl

/-- C7 witness: the amended behaviour at a concrete short key. -/
theorem c7_witness :
    initEncryptedVault (str2cp "vault.db") [9, 9] ([], 1) =
      .error (.databaseError "Database initialization failed: Invalid encryption key") :=
  c7_amended_short_key (by decide) (by decide)

/-- C10: validation returns the stripped text; `add_reflection` encrypts
and checksums that stripped text (not the submitted one); and whenever the
submitted text has leading or trailing whitespace, the stored plaintext
differs from the submitted text. -/
theorem c10_strip_before_store :
    (∀ t v : List Nat, validateReflectionText t = .ok v → v = pyStrip t) ∧
    (∀ (now : Nat) (t v : List Nat) (st : VaultState),
      validateReflectionText t = .ok v →
      addReflection now t st = .ok (st.nextId,
        { st with
          rows := st.rows ++
            [{ id := st.nextId,
               encrypted_text := fernetEncrypt st.key (utf8Encode (pyStrip t)),
               checksum := sha256hex (utf8Encode (pyStrip t)),
               created_at := now, updated_at := now }]
          nextId := st.nextId + 1 })) ∧
    (∀ t v : List Nat, validateReflectionText t = .ok v →
      ((∃ c, t.head? = some c ∧ isPySpace c = true) ∨
       (∃ c, t.getLast? = some c ∧ isPySpace c = true)) →
      pyStrip t ≠ t) := by
  refine ⟨fun t v h => (validateReflectionText_ok h).1, ?_, ?_⟩
  · intro now t v st hval
    obtain ⟨hv, -⟩ := validateReflectionText_ok hval
    subst hv
    exact addReflection_ok hval
  · intro t v hval hedge
    rcases hedge with ⟨c, hc, hsp⟩ | ⟨c, hc, hsp⟩
    · exact pyStrip_ne_of_head_space hc hsp
    · exact pyStrip_ne_of_last_space hc hsp

/-- C10 witness: the concrete text `"a "` passes validation and its stored
form differs from the submitted one. -/
theorem c10_witness : pyStrip (str2cp "a ") ≠ str2cp "a " :=
  c10_strip_before_store.2.2 (str2cp "a ") (str2cp "a") rfl
    (Or.inr ⟨32, rfl, rfl⟩)

/-- C9: `rotate_key(new_password)` generates and persists a fresh master
key (the new key file is a version-1 record whose `key_hash` is the digest
of the new key), while the vault — every stored row with its ciphertext,
checksum and timestamps, and the next id — is left exactly as before: no
re-encryption of records happens during rotation. -/
theorem c9_rotation_preserves_vault {sys : SystemState}
    {randSalt randPw : Bytes} {newPassword : Option Bytes}
    (hs : randSalt ≠ []) :
    rotateKey sys randSalt randPw newPassword =
      .ok (genKeyBytes randSalt randPw newPassword,
        { mgr := { master_key := some (genKeyBytes randSalt randPw newPassword)
                   salt := some randSalt }
          keyFile := some (genFile randSalt randPw newPassword)
          vault := sys.vault }) ∧
    (genRecord randSalt randPw newPassword).key_hash =
      some (sha256hex (genKeyBytes randSalt randPw newPassword)) ∧
    (genRecord randSalt randPw newPassword).ver = some 1 := by
  refine ⟨?_, rfl, rfl⟩
  simp only [rotateKey, generateMasterKey_eq]
  rw [saveMasterKey_after_generate hs]
  rfl

/-- C9 witness: rotation at a concrete state leaves the vault untouched. -/
theorem c9_witness :
    rotateKey ⟨⟨none, none⟩, none, ⟨[], 1, [5]⟩⟩ [3] [4] none =
      .ok (genKeyBytes [3] [4] none,
        { mgr := { master_key := some (genKeyBytes [3] [4] none)
                   salt := some [3] }
          keyFile := some (genFile [3] [4] none)
          vault := ⟨[], 1, [5]⟩ }) :=
  (c9_rotation_preserves_vault (by decide)).1

/-- C8: `get_all_reflections` returns records ordered newest first
(`created_at` descending), and in the concrete scenario — `add("hello")`
returning id 1, then `add("world")` returning id 2 with a later
timestamp — it returns the id-2 record before the id-1 record. -/
theorem c8_get_all_newest_first :
    (∀ st : VaultState,
      (getAllReflections st).Pairwise (fun a b => b.2.2.1 ≤ a.2.2.1)) ∧
    (∀ (key : Bytes) (t1 t2 : Nat), t1 < t2 →
      addReflection t1 (str2cp "hello") ⟨[], 1, key⟩ =
        .ok (1, ⟨[⟨1, fernetEncrypt key (str2cp "hello"),
          sha256hex (str2cp "hello"), t1, t1⟩], 2, key⟩) ∧
      addReflection t2 (str2cp "world")
          ⟨[⟨1, fernetEncrypt key (str2cp "hello"),
            sha256hex (str2cp "hello"), t1, t1⟩], 2, key⟩ =
        .ok (2, ⟨[⟨1, fernetEncrypt key (str2cp "hello"),
            sha256hex (str2cp "hello"), t1, t1⟩,
          ⟨2, fernetEncrypt key (str2cp "world"),
            sha256hex (str2cp "world"), t2, t2⟩], 3, key⟩) ∧
      getAllReflections ⟨[⟨1, fernetEncrypt key (str2cp "hello"),
          sha256hex (str2cp "hello"), t1, t1⟩,
        ⟨2, fernetEncrypt key (str2cp "world"),
          sha256hex (str2cp "world"), t2, t2⟩], 3, key⟩ =
        [(2, str2cp "world", t2, t2), (1, str2cp "hello", t1, t1)]) := by
  refine ⟨fun st => getAll_sorted_desc st, ?_⟩
  intro key t1 t2 hlt
  have hv1 : validateReflectionText (str2cp "hello") = .ok (str2cp "hello") := rfl
  have hv2 : validateReflectionText (str2cp "world") = .ok (str2cp "world") := rfl
  refine ⟨addReflection_ok hv1, addReflection_ok hv2, ?_⟩
  have hsort : sortByCreatedDesc
      [⟨1, fernetEncrypt key (str2cp "hello"), sha256hex (str2cp "hello"), t1, t1⟩,
       ⟨2, fernetEncrypt key (str2cp "world"), sha256hex (str2cp "world"), t2, t2⟩] =
      [⟨2, fernetEncrypt key (str2cp "world"), sha256hex (str2cp "world"), t2, t2⟩,
       ⟨1, fernetEncrypt key (str2cp "hello"), sha256hex (str2cp "hello"), t1, t1⟩] := by
    unfold sortByCreatedDesc
    simp only [List.insertionSort, List.orderedInsert]
    rw [if_neg (show ¬ rowGe
      ⟨1, fernetEncrypt key (str2cp "hello"), sha256hex (str2cp "hello"), t1, t1⟩
      ⟨2, fernetEncrypt key (str2cp "world"), sha256hex (str2cp "world"), t2, t2⟩
      from not_le.mpr hlt)]
  have hd1 : decryptRow key
      ⟨1, fernetEncrypt key (str2cp "hello"), sha256hex (str2cp "hello"), t1, t1⟩ =
      some (1, str2cp "hello", t1, t1) := decryptRow_of_wellFormed rfl rfl
  have hd2 : decryptRow key
      ⟨2, fernetEncrypt key (str2cp "world"), sha256hex (str2cp "world"), t2, t2⟩ =
      some (2, str2cp "world", t2, t2) := decryptRow_of_wellFormed rfl rfl
  unfold getAllReflections
  rw [hsort]
  simp [List.filterMap_cons, hd1, hd2]

/-- C8 witness: the scenario at concrete timestamps 0 and 1. -/
theorem c8_witness :
    getAllReflections ⟨[⟨1, fernetEncrypt [] (str2cp "hello"),
        sha256hex (str2cp "hello"), 0, 0⟩,
      ⟨2, fernetEncrypt [] (str2cp "world"),
        sha256hex (str2cp "world"), 1, 1⟩], 3, []⟩ =
      [(2, str2cp "world", 1, 1), (1, str2cp "hello", 0, 0)] :=
  (c8_get_all_newest_first.2 [] 0 1 (by decide)).2.2

/-- C5: for a stored (well-formed) record, flipping any byte of its
ciphertext or of its checksum makes `get_reflection` on its id raise
`EncryptionError` (never returning text), excludes that row silently from
`get_all_reflections`, and leaves every other (uncorrupted) row still
returned by `get_all_reflections`. -/
theorem c5_tamper_detection {key : Bytes} {A B : List Row} {r r' : Row}
    {i b n : Nat}
    (hwf : rowWellFormed key r)
    (hids : ∀ s ∈ A ++ B, s.id ≠ r.id)
    (hpos : r.id ≠ 0)
    (htam :
      (i < r.encrypted_text.length ∧ r.encrypted_text[i]? ≠ some b ∧
        r' = { r with encrypted_text := r.encrypted_text.set i b }) ∨
      (i < r.checksum.length ∧ r.checksum[i]? ≠ some b ∧
        r' = { r with checksum := r.checksum.set i b })) :
    (∃ m, getReflection ⟨A ++ r' :: B, n, key⟩ r.id =
      .error (.encryptionError m)) ∧
    (∀ e ∈ getAllReflections ⟨A ++ r' :: B, n, key⟩, e.1 ≠ r.id) ∧
    (∀ s ∈ A ++ B, ∀ m, s.encrypted_text = fernetEncrypt key m →
      s.checksum = sha256hex m →
      (s.id, utf8Decode m, s.created_at, s.updated_at) ∈
        getAllReflections ⟨A ++ r' :: B, n, key⟩) := by
  obtain ⟨mm, hct, hcs⟩ := hwf
  have hnone : decryptRow key r' = none := by
    rcases htam with ⟨hi, hb, rfl⟩ | ⟨hi, hb, rfl⟩
    · refine decryptRow_tamperCt ?_ hcs
      show r.encrypted_text.set i b ≠ fernetEncrypt key mm
      rw [← hct]
      exact set_ne_of_getElem_ne hi hb
    · refine decryptRow_tamperCs hct ?_
      show r.checksum.set i b ≠ sha256hex mm
      rw [← hcs]
      exact set_ne_of_getElem_ne hi hb
  have hid' : r'.id = r.id := by
    rcases htam with ⟨-, -, rfl⟩ | ⟨-, -, rfl⟩ <;> rfl
  have hfind : (A ++ r' :: B).find? (fun s : Row => s.id == r.id) = some r' := by
    rw [find?_id_append (fun s hs => hids s (List.mem_append.mpr (Or.inl hs)))]
    exact List.find?_cons_of_pos _ (by simp [hid'])
  refine ⟨getReflection_err_of_decryptRow_none hpos hfind hnone, ?_, ?_⟩
  · intro e he
    obtain ⟨s, hs, hd⟩ := getAll_mem_imp he
    rw [(decryptRow_some_fields hd).1]
    rcases List.mem_append.mp hs with hsA | hsB
    · exact hids s (List.mem_append.mpr (Or.inl hsA))
    · rcases List.mem_cons.mp hsB with rfl | hsB2
      · rw [hnone] at hd
        exact Option.noConfusion hd
      · exact hids s (List.mem_append.mpr (Or.inr hsB2))
  · intro s hs m hm1 hm2
    have hs' : s ∈ A ++ r' :: B := by
      rcases List.mem_append.mp hs with h | h
      · exact List.mem_append.mpr (Or.inl h)
      · exact List.mem_append.mpr (Or.inr (List.mem_cons_of_mem r' h))
    exact getAll_mem_of_wellFormed hs' hm1 hm2

/-- C5 witness: a single stored record with its first ciphertext byte
flipped is rejected by `get_reflection` and excluded from
`get_all_reflections`. -/
theorem c5_witness :
    (∃ m, getReflection ⟨[(⟨1, (fernetEncrypt [7] [97]).set 0 2,
        sha256hex [97], 5, 5⟩ : Row)], 9, [7]⟩ 1 =
      .error (.encryptionError m)) ∧
    (∀ e ∈ getAllReflections ⟨[(⟨1, (fernetEncrypt [7] [97]).set 0 2,
        sha256hex [97], 5, 5⟩ : Row)], 9, [7]⟩, e.1 ≠ 1) ∧
    (∀ s ∈ ([] : List Row), ∀ m, s.encrypted_text = fernetEncrypt [7] m →
      s.checksum = sha256hex m →
      (s.id, utf8Decode m, s.created_at, s.updated_at) ∈
        getAllReflections ⟨[(⟨1, (fernetEncrypt [7] [97]).set 0 2,
          sha256hex [97], 5, 5⟩ : Row)], 9, [7]⟩) :=
  @c5_tamper_detection [7] [] []
    ⟨1, fernetEncrypt [7] [97], sha256hex [97], 5, 5⟩
    ⟨1, (fernetEncrypt [7] [97]).set 0 2, sha256hex [97], 5, 5⟩
    0 2 9 ⟨[97], rfl, rfl⟩ (by simp) (by decide)
    (Or.inl ⟨by decide, by decide, rfl⟩)
